import Mathlib

/-!
Verification development for the PGM_DDPM_and_SM repository.

This file gives a shallow embedding of the training and sampling driver
loops of `main.py` and of the time-embedding code of `unet/UNet.py` and
`unet/UNet_conditional.py`.  Image batches handled by the external
networks are kept abstract (type parameters); the tensor computations the
verified properties depend on (timestep tensors, the MSE loss, fancy-index
assignment, the time-embedding pipeline) are modelled concretely over
`ℚ` and `ℕ`, with elementwise transcendental activations abstracted as
function parameters.
-/

namespace PGM

/-- `torch.randint(lo, hi, ...)` draws integers uniformly from `[lo, hi)`.
The random source is modelled as a stream `g` of naturals; entry `k` of
the drawn tensor is `lo + g k % (hi - lo)`, the image of the uniform
residue `g k % (hi - lo)` under the translation by `lo`. -/
def torchRandint (lo hi : ℕ) (g : ℕ → ℕ) (k : ℕ) : ℕ :=
  lo + g k % (hi - lo)

/-- `timesteps = torch.randint(0, num_timesteps, (batch.shape[0],)).long()`
in `training_loop` (main.py, line 36). -/
def drawTimestepsDDPM (T bsz : ℕ) (g : ℕ → ℕ) : List ℕ :=
  (List.range bsz).map (torchRandint 0 T g)

/-- `timesteps = torch.randint(0, num_timesteps, (images.shape[0],)).long()`
in `training_loop_conditional` (main.py, line 65). -/
def drawTimestepsCondit (T bsz : ℕ) (g : ℕ → ℕ) : List ℕ :=
  (List.range bsz).map (torchRandint 0 T g)

/-- `timesteps = torch.randint(1, num_timesteps, (batch.shape[0],)).long()`
in `training_loop_cold` (main.py, line 94). -/
def drawTimestepsCold (T bsz : ℕ) (g : ℕ → ℕ) : List ℕ :=
  (List.range bsz).map (torchRandint 1 T g)

/-- `F.mse_loss` with the default mean reduction, on flattened tensors of
equal shape. -/
def mseLoss (a b : List ℚ) : ℚ :=
  ((List.zipWith (fun x y => (x - y) ^ 2) a b).sum) / (a.length : ℚ)

/-- Interface of the `DDPM` process object as called by `training_loop`
and `generate_image`: `Img` is the image-batch type, `Res` the network
output type.  Timestep tensors are lists of naturals (one entry per
element of the tensor). -/
structure DDPMModel (Img Res : Type) where
  num_timesteps : ℕ
  add_noise : Img → Img → List ℕ → Img
  reverse : Img → List ℕ → Res
  step : Res → List ℕ → Img → Img

/-- Interface of the `DDPM_conditional` process object: `reverse` also
receives the label tensor. -/
structure DDPMCondModel (Img Res Lab : Type) where
  num_timesteps : ℕ
  add_noise : Img → Img → List ℕ → Img
  reverse : Img → List ℕ → Lab → Res
  step : Res → List ℕ → Img → Img

/-- Interface of the cold-diffusion process objects (`MedianBlur`,
`ConvolutionBlur`, `SuperResolution`) as called by `training_loop_cold`
and `generate_image_cold`. -/
structure ColdModel (Img : Type) where
  num_timesteps : ℕ
  forward_process : Img → List ℕ → Img
  restore_step_algo1 : Img → List ℕ → Img
  restore_step_algo2 : Img → List ℕ → Img
  reverse : Img → List ℕ → Img

/-- `noise_pred` of `training_loop` (main.py, lines 38-39):
`model.reverse(model.add_noise(batch, noise, timesteps), timesteps)`. -/
def ddpmPred (m : DDPMModel (List ℚ) (List ℚ)) (batch noise : List ℚ)
    (T bsz : ℕ) (g : ℕ → ℕ) : List ℚ :=
  let ts := drawTimestepsDDPM T bsz g
  m.reverse (m.add_noise batch noise ts) ts

/-- `loss = F.mse_loss(noise_pred, noise)` of `training_loop`
(main.py, line 40). -/
def ddpmTrainLoss (m : DDPMModel (List ℚ) (List ℚ)) (batch noise : List ℚ)
    (T bsz : ℕ) (g : ℕ → ℕ) : ℚ :=
  mseLoss (ddpmPred m batch noise T bsz g) noise

/-- `noise_pred` of `training_loop_conditional` (main.py, lines 67-68). -/
def condPred (m : DDPMCondModel (List ℚ) (List ℚ) (List ℕ))
    (images noise : List ℚ) (labels : List ℕ) (T bsz : ℕ) (g : ℕ → ℕ) : List ℚ :=
  let ts := drawTimestepsCondit T bsz g
  m.reverse (m.add_noise images noise ts) ts labels

/-- `loss = F.mse_loss(noise_pred, noise)` of `training_loop_conditional`
(main.py, line 69). -/
def condTrainLoss (m : DDPMCondModel (List ℚ) (List ℚ) (List ℕ))
    (images noise : List ℚ) (labels : List ℕ) (T bsz : ℕ) (g : ℕ → ℕ) : ℚ :=
  mseLoss (condPred m images noise labels T bsz g) noise

/-- `image_pred` of `training_loop_cold` (main.py, lines 96-97):
`model.reverse(model.forward_process(batch, timesteps), timesteps)`. -/
def coldPred (m : ColdModel (List ℚ)) (batch : List ℚ)
    (T bsz : ℕ) (g : ℕ → ℕ) : List ℚ :=
  let ts := drawTimestepsCold T bsz g
  m.reverse (m.forward_process batch ts) ts

/-- `loss = F.mse_loss(image_pred, batch)` of `training_loop_cold`
(main.py, line 98). -/
def coldTrainLoss (m : ColdModel (List ℚ)) (batch : List ℚ)
    (T bsz : ℕ) (g : ℕ → ℕ) : ℚ :=
  mseLoss (coldPred m batch T bsz g) batch

/-- One call into a cold-diffusion process object, together with the
entries of the timestep tensor it receives. -/
inductive ColdCall where
  | forwardProcess (ts : List ℕ)
  | restore1 (ts : List ℕ)
  | restore2 (ts : List ℕ)
  | reverse (ts : List ℕ)
deriving DecidableEq

/-- The timestep tensor a cold-diffusion call receives. -/
def ColdCall.timesteps : ColdCall → List ℕ
  | .forwardProcess ts => ts
  | .restore1 ts => ts
  | .restore2 ts => ts
  | .reverse ts => ts

/-- The cold-diffusion operations invoked by one batch of
`training_loop_cold` (main.py, lines 94-97), with the timestep tensor
each receives: `forward_process(batch, timesteps)` then
`reverse(blured, timesteps)`. -/
def coldTrainCalls (T bsz : ℕ) (g : ℕ → ℕ) : List ColdCall :=
  let ts := drawTimestepsCold T bsz g
  [ColdCall.forwardProcess ts, ColdCall.reverse ts]

/-- Loop state of `generate_image_cold`: the current `blured` batch and
the calls made into the model so far. -/
structure ColdState (Img : Type) where
  blured : Img
  trace : List ColdCall

/-- One iteration of the loop of `generate_image_cold`
(main.py, lines 195-204): for `t > 1` apply `restore_step_algo1` when
`algoindex == 1` and `restore_step_algo2` when `algoindex == 2`
(two independent `if`s, as in the source); otherwise call `reverse`. -/
def coldStep {Img : Type} (m : ColdModel Img) (s : ℕ) (a : ℤ)
    (st : ColdState Img) (t : ℕ) : ColdState Img :=
  if 1 < t then
    let tt := List.replicate s t
    let st1 := if a = 1 then
        ColdState.mk (m.restore_step_algo1 st.blured tt)
          (st.trace ++ [ColdCall.restore1 tt])
      else st
    if a = 2 then
      ColdState.mk (m.restore_step_algo2 st1.blured tt)
        (st1.trace ++ [ColdCall.restore2 tt])
    else st1
  else
    let tt := List.replicate s t
    ColdState.mk (m.reverse st.blured tt) (st.trace ++ [ColdCall.reverse tt])

/-- Result of `generate_image_cold`: the returned `frames`, the final
`blured` batch, and the trace of model calls. -/
structure ColdResult (Img Frame : Type) where
  frames : List Frame
  blured : Img
  trace : List ColdCall

/-- `generate_image_cold(model, images, algoindex)` (main.py,
lines 184-208).  `s` is `images.shape[0]`, `item b i` models
`b[i].detach().cpu().numpy()`.  It first applies `forward_process` at
`t = num_timesteps`, then iterates over
`list(range(1, num_timesteps))[::-1]`. -/
def generateImageCold {Img Frame : Type} (m : ColdModel Img)
    (item : Img → ℕ → Frame) (images : Img) (s : ℕ) (a : ℤ) :
    ColdResult Img Frame :=
  let tT := List.replicate s m.num_timesteps
  let st0 : ColdState Img :=
    ColdState.mk (m.forward_process images tT) [ColdCall.forwardProcess tT]
  let stF := ((List.range' 1 (m.num_timesteps - 1)).reverse).foldl
    (coldStep m s a) st0
  ColdResult.mk ((List.range s).map (fun i => item stF.blured i))
    stF.blured stF.trace

/-- One call into a DDPM process object made by `generate_image` /
`generate_image_conditional`, with the scalar timestep `t` of the loop
iteration (the drivers pass the constant tensor
`(torch.ones(sample_size, 1) * t).long()` to `reverse` and its row
`time_tensor[0]` to `step`). -/
inductive DCall where
  | reverseCall (t : ℕ)
  | stepCall (t : ℕ)
deriving DecidableEq

/-- Loop state of `generate_image` / `generate_image_conditional`. -/
structure GenState (Img Frame : Type) where
  sample : Img
  framesMid : List Frame
  trace : List DCall

/-- Result of `generate_image` / `generate_image_conditional`. -/
structure GenResult (Img Frame : Type) where
  frames : List Frame
  framesMid : List Frame
  sample : Img
  trace : List DCall

/-- One iteration of the loop of `generate_image` (main.py,
lines 145-153): `residual = ddpm.reverse(sample, time_tensor)`,
`sample = ddpm.step(residual, time_tensor[0], sample)`, and when
`t == 500` one frame per sample of the squeezed current sample is
appended to `frames_mid`. -/
def genStep {Img Res Frame : Type} (m : DDPMModel Img Res) (sq : Img → Img)
    (item : Img → ℕ → Frame) (s : ℕ) (st : GenState Img Frame) (t : ℕ) :
    GenState Img Frame :=
  let residual := m.reverse st.sample (List.replicate s t)
  let sample := m.step residual [t] st.sample
  let framesMid := if t = 500 then
      st.framesMid ++ (List.range s).map (fun i => item (sq sample) i)
    else st.framesMid
  GenState.mk sample framesMid
    (st.trace ++ [DCall.reverseCall t, DCall.stepCall t])

/-- `generate_image(ddpm, sample_size, channel, height, width)`
(main.py, lines 136-158).  `gauss` is the seed
`torch.randn(sample_size, channel, height, width)`, `sq` models
`torch.squeeze` and `item b i` models `b[i].detach().cpu().numpy()`;
the loop runs over `list(range(ddpm.num_timesteps))[::-1]`. -/
def generateImage {Img Res Frame : Type} (m : DDPMModel Img Res)
    (sq : Img → Img) (item : Img → ℕ → Frame) (gauss : Img) (s : ℕ) :
    GenResult Img Frame :=
  let stF := ((List.range m.num_timesteps).reverse).foldl
    (genStep m sq item s) (GenState.mk gauss [] [])
  GenResult.mk ((List.range s).map (fun i => item (sq stF.sample) i))
    stF.framesMid stF.sample stF.trace

/-- One iteration of the loop of `generate_image_conditional` (main.py,
lines 169-177); identical to `genStep` except that `reverse` also
receives the label tensor. -/
def genStepCond {Img Res Lab Frame : Type} (m : DDPMCondModel Img Res Lab)
    (labels : Lab) (sq : Img → Img) (item : Img → ℕ → Frame) (s : ℕ)
    (st : GenState Img Frame) (t : ℕ) : GenState Img Frame :=
  let predictedNoise := m.reverse st.sample (List.replicate s t) labels
  let sample := m.step predictedNoise [t] st.sample
  let framesMid := if t = 500 then
      st.framesMid ++ (List.range s).map (fun i => item (sq sample) i)
    else st.framesMid
  GenState.mk sample framesMid
    (st.trace ++ [DCall.reverseCall t, DCall.stepCall t])

/-- `generate_image_conditional(ddpm, labels, sample_size, channel,
height, width)` (main.py, lines 160-182). -/
def generateImageConditional {Img Res Lab Frame : Type}
    (m : DDPMCondModel Img Res Lab) (labels : Lab) (sq : Img → Img)
    (item : Img → ℕ → Frame) (gauss : Img) (s : ℕ) : GenResult Img Frame :=
  let stF := ((List.range m.num_timesteps).reverse).foldl
    (genStepCond m labels sq item s) (GenState.mk gauss [] [])
  GenResult.mk ((List.range s).map (fun i => item (sq stF.sample) i))
    stF.framesMid stF.sample stF.trace

/-- The pure sample update performed by one iteration of
`generate_image`: `ddpm.step(ddpm.reverse(x, time_tensor),
time_tensor[0], x)`. -/
def ddpmSampleStep {Img Res : Type} (m : DDPMModel Img Res) (s : ℕ)
    (x : Img) (t : ℕ) : Img :=
  m.step (m.reverse x (List.replicate s t)) [t] x

/-- The pure sample update performed by one iteration of
`generate_image_conditional`. -/
def condSampleStep {Img Res Lab : Type} (m : DDPMCondModel Img Res Lab)
    (labels : Lab) (s : ℕ) (x : Img) (t : ℕ) : Img :=
  m.step (m.reverse x (List.replicate s t) labels) [t] x

/-- Python / PyTorch row-index wrap-around: a (possibly negative) index
`z` into a dimension of size `n` addresses position `z % n ∈ [0, n)`. -/
def wrapIdx (n : ℕ) (z : ℤ) : ℕ :=
  (z % (n : ℤ)).toNat

/-- `M[idxs]` for a list of (possibly negative) row indices. -/
def gatherRows (M : List (List ℚ)) (idxs : List ℤ) : List (List ℚ) :=
  idxs.map (fun z => M.getD (wrapIdx M.length z) [])

/-- `M[idxs] = rows`: fancy-index assignment of whole rows; the
right-hand side is fully evaluated before the scatter, which is what the
two assignments in `sinusoidal_embedding` rely on. -/
def scatterRows (M : List (List ℚ)) (idxs : List ℤ) (rows : List (List ℚ)) :
    List (List ℚ) :=
  (idxs.zip rows).foldl (fun A p => A.set (wrapIdx A.length p.1) p.2) M

/-- The raw angle `i / 10_000 ** (2 * j / d)` of `sinusoidal_embedding`
(UNet.py, line 7), written as `i * w j` where `w j` is the (abstract,
strictly-positive real in the source) factor `10_000 ** (-2 * j / d)`. -/
def rawAngle (w : ℕ → ℚ) (i j : ℕ) : ℚ :=
  (i : ℚ) * w j

/-- `sin_mask = torch.arange(0, n, 2)` (UNet.py, line 8): the even
indices `0, 2, ...` below `n`, of which there are `⌈n / 2⌉`. -/
def sinMask (n : ℕ) : List ℤ :=
  (List.range ((n + 1) / 2)).map (fun k : ℕ => 2 * (k : ℤ))

/-- `sinusoidal_embedding(n, d)` (UNet.py, lines 5-13), with the
elementwise `torch.sin` / `torch.cos` abstracted as `sinF` / `cosF`:
build the raw-angle matrix, assign `embedding[sin_mask] =
sin(embedding[sin_mask])`, then assign `embedding[1 - sin_mask] =
cos(embedding[sin_mask])`, where the gathered rows on the right-hand
side of the second assignment already hold the sin-transformed values. -/
def sinusoidalEmbedding (n d : ℕ) (w : ℕ → ℚ) (sinF cosF : ℚ → ℚ) :
    List (List ℚ) :=
  let emb0 := (List.range n).map (fun i =>
    (List.range d).map (fun j => rawAngle w i j))
  let emb1 := scatterRows emb0 (sinMask n)
    ((gatherRows emb0 (sinMask n)).map (List.map sinF))
  scatterRows emb1 ((sinMask n).map (fun z => 1 - z))
    ((gatherRows emb1 (sinMask n)).map (List.map cosF))

/-- A real tensor: a shape and row-major data. -/
structure Tensor where
  shape : List ℕ
  data : List ℚ
deriving DecidableEq

/-- An integer (index) tensor, as produced by `.long()`. -/
structure IdxTensor where
  shape : List ℕ
  data : List ℕ
deriving DecidableEq

/-- The runtime errors the modelled tensor operations can raise. -/
inductive TErr where
  | shapeErr
  | indexErr
  | attributeErr
deriving DecidableEq

/-- Result of a tensor computation. -/
abbrev TRes := Except TErr Tensor

/-- `nn.Embedding(numEmb, d)` lookup with weight rows `W i`: output shape
`t.shape ++ [d]`; an index `≥ numEmb` raises an IndexError. -/
def embedLookup (numEmb d : ℕ) (W : ℕ → ℕ → ℚ) (t : IdxTensor) : TRes :=
  if t.data.all (fun i => i < numEmb) then
    Except.ok (Tensor.mk (t.shape ++ [d])
      (t.data.flatMap (fun i => (List.range d).map (fun j => W i j))))
  else Except.error TErr.indexErr

/-- `torch.squeeze`: remove every dimension of size 1. -/
def squeezeT (x : Tensor) : Tensor :=
  Tensor.mk (x.shape.filter (fun a => a ≠ 1)) x.data

/-- The row-major data produced by `nn.Linear(inF, outF)` with weight `A`
(row `j`, column `k`) and bias `c` on a batch of `rows` rows stored in
`xs`. -/
def linData (inF outF : ℕ) (A : ℕ → ℕ → ℚ) (c : ℕ → ℚ) (rows : ℕ)
    (xs : List ℚ) : List ℚ :=
  (List.range rows).flatMap (fun r =>
    (List.range outF).map (fun j =>
      c j + ((List.range inF).map
        (fun k => A j k * xs.getD (r * inF + k) 0)).sum))

/-- `nn.Linear(inF, outF)`, applied to the last dimension; the leading
dimensions are a batch of rows, as in PyTorch. -/
def linearT (inF outF : ℕ) (A : ℕ → ℕ → ℚ) (c : ℕ → ℚ) (x : Tensor) : TRes :=
  match x.shape.getLast? with
  | none => Except.error TErr.shapeErr
  | some l =>
    if l = inF then
      Except.ok (Tensor.mk (x.shape.dropLast ++ [outF])
        (linData inF outF A c x.shape.dropLast.prod x.data))
    else Except.error TErr.shapeErr

/-- An elementwise activation (`nn.SiLU` in the source, whose pointwise
function is abstracted). -/
def elemwiseT (f : ℚ → ℚ) (x : Tensor) : Tensor :=
  Tensor.mk x.shape (x.data.map f)

/-- `.reshape(n, -1, 1, 1)`. -/
def reshapeN11 (n : ℕ) (x : Tensor) : TRes :=
  let numel := x.shape.prod
  if n ≠ 0 ∧ n ∣ numel then
    Except.ok (Tensor.mk [n, numel / n, 1, 1] x.data)
  else Except.error TErr.shapeErr

/-- Broadcast two reversed (trailing-first) shape lists. -/
def bshapeRev : List ℕ → List ℕ → Option (List ℕ)
  | [], l => some l
  | l, [] => some l
  | a :: l1, b :: l2 =>
    (bshapeRev l1 l2).bind (fun r =>
      if a = b then some (a :: r)
      else if a = 1 then some (b :: r)
      else if b = 1 then some (a :: r)
      else none)

/-- Broadcast two shapes, aligning from the trailing dimension. -/
def bshape (s1 s2 : List ℕ) : Option (List ℕ) :=
  (bshapeRev s1.reverse s2.reverse).map List.reverse

/-- Decode a row-major linear index into a multi-index. -/
def unflattenIdx : List ℕ → ℕ → List ℕ
  | [], _ => []
  | _ :: ds, i => (i / ds.prod) :: unflattenIdx ds (i % ds.prod)

/-- Encode a multi-index into a row-major linear index. -/
def flattenIdx : List ℕ → List ℕ → ℕ
  | [], _ => 0
  | _ :: _, [] => 0
  | _ :: ds, i :: is => i * ds.prod + flattenIdx ds is

/-- Map a multi-index of the broadcast result onto a source tensor's
multi-index: drop the extra leading coordinates and zero the coordinates
of broadcast (size-1) source dimensions. -/
def alignIdx (s idx : List ℕ) : List ℕ :=
  List.zipWith (fun a i => if a = 1 then 0 else i) s
    (idx.drop (idx.length - s.length))

/-- Broadcasting elementwise addition `x + y`. -/
def broadcastAdd (x y : Tensor) : TRes :=
  match bshape x.shape y.shape with
  | none => Except.error TErr.shapeErr
  | some s =>
    Except.ok (Tensor.mk s ((List.range s.prod).map (fun i =>
      let idx := unflattenIdx s i
      x.data.getD (flattenIdx x.shape (alignIdx x.shape idx)) 0
        + y.data.getD (flattenIdx y.shape (alignIdx y.shape idx)) 0)))

/-- In-place addition `x += y`: like `broadcastAdd`, but the result must
keep the shape of `x` (an in-place op cannot broadcast `x` up). -/
def inplaceAdd (x y : Tensor) : TRes :=
  match broadcastAdd x y with
  | Except.ok r =>
    if r.shape = x.shape then Except.ok r else Except.error TErr.shapeErr
  | Except.error e => Except.error e

/-- `torch.cat((x, y), dim=1)`. -/
def catDim1 (x y : Tensor) : TRes :=
  match x.shape, y.shape with
  | n1 :: c1 :: rest1, n2 :: c2 :: rest2 =>
    if n1 = n2 ∧ rest1 = rest2 then
      Except.ok (Tensor.mk (n1 :: (c1 + c2) :: rest1)
        ((List.range n1).flatMap (fun i =>
          ((x.data.drop (i * (c1 * rest1.prod))).take (c1 * rest1.prod))
            ++ ((y.data.drop (i * (c2 * rest2.prod))).take (c2 * rest2.prod)))))
    else Except.error TErr.shapeErr
  | _, _ => Except.error TErr.shapeErr

/-- Parameters of one `_make_te(dim_in, dim_out)` module (UNet.py,
line 137): `nn.Linear(dim_in, dim_out)`, `nn.SiLU()`,
`nn.Linear(dim_out, dim_out)`. -/
structure TEParams where
  dimOut : ℕ
  A1 : ℕ → ℕ → ℚ
  c1 : ℕ → ℚ
  act : ℚ → ℚ
  A2 : ℕ → ℕ → ℚ
  c2 : ℕ → ℚ

/-- Apply a `_make_te` module to a tensor whose last dimension must be
`dimIn`. -/
def applyTE (dimIn : ℕ) (p : TEParams) (x : Tensor) : TRes :=
  match linearT dimIn p.dimOut p.A1 p.c1 x with
  | Except.ok y => linearT p.dimOut p.dimOut p.A2 p.c2 (elemwiseT p.act y)
  | Except.error e => Except.error e

/-- The data a `_make_te` module produces on a batch of `rows` rows. -/
def teData (dimIn : ℕ) (p : TEParams) (rows : ℕ) (xs : List ℚ) : List ℚ :=
  linData p.dimOut p.dimOut p.A2 p.c2 rows
    ((linData dimIn p.dimOut p.A1 p.c1 rows xs).map p.act)

/-- The shared scalar parameters of `MyUNet` / `UNet_conditional`:
`n_steps`, `time_emb_dim` and the `time_embed` weight matrix. -/
structure UNetParams where
  nSteps : ℕ
  d : ℕ
  embW : ℕ → ℕ → ℚ

/-- The layers of `MyUNet` that both forwards use identically: the seven
`_make_te` modules, and the blocks / down / up / out convolutions, kept
abstract as shape-dependent partial tensor functions (`none` models a
runtime shape error inside the layer). -/
structure UNetBlocks where
  te1 : TEParams
  te2 : TEParams
  te3 : TEParams
  teMid : TEParams
  te4 : TEParams
  te5 : TEParams
  teOut : TEParams
  b1 : Tensor → Option Tensor
  b2 : Tensor → Option Tensor
  b3 : Tensor → Option Tensor
  bMid : Tensor → Option Tensor
  b4 : Tensor → Option Tensor
  b5 : Tensor → Option Tensor
  bOut : Tensor → Option Tensor
  down1 : Tensor → Option Tensor
  down2 : Tensor → Option Tensor
  down3 : Tensor → Option Tensor
  up1 : Tensor → Option Tensor
  up2 : Tensor → Option Tensor
  up3 : Tensor → Option Tensor
  convOut : Tensor → Option Tensor

/-- Lift an abstract layer to the error monad. -/
def liftB (f : Tensor → Option Tensor) (x : Tensor) : TRes :=
  match f x with
  | some y => Except.ok y
  | none => Except.error TErr.shapeErr

/-- The subterm `self.teK(t).reshape(n, -1, 1, 1)` appearing (seven
times) in both forwards. -/
def teResh (P : UNetParams) (p : TEParams) (n : ℕ) (temb : Tensor) : TRes :=
  match applyTE P.d p temb with
  | Except.ok v => reshapeN11 n v
  | Except.error e => Except.error e

/-- The part of the forward pass that is textually identical in
`MyUNet.forward` (UNet.py, lines 114-135) and `UNet_conditional.forward`
(UNet_conditional.py, lines 23-38): everything after the time embedding
`t` has been computed, with `n = len(x)`. -/
def unetBody (P : UNetParams) (B : UNetBlocks) (x : Tensor) (temb : Tensor) :
    TRes :=
  if x.shape = [] then Except.error TErr.shapeErr else do
    let n := x.shape.headD 0
    let v1 ← teResh P B.te1 n temb
    let s1 ← broadcastAdd x v1
    let out1 ← liftB B.b1 s1
    let d1 ← liftB B.down1 out1
    let v2 ← teResh P B.te2 n temb
    let s2 ← broadcastAdd d1 v2
    let out2 ← liftB B.b2 s2
    let d2 ← liftB B.down2 out2
    let v3 ← teResh P B.te3 n temb
    let s3 ← broadcastAdd d2 v3
    let out3 ← liftB B.b3 s3
    let d3 ← liftB B.down3 out3
    let vM ← teResh P B.teMid n temb
    let sM ← broadcastAdd d3 vM
    let outMid ← liftB B.bMid sM
    let u1 ← liftB B.up1 outMid
    let c4 ← catDim1 out3 u1
    let v4 ← teResh P B.te4 n temb
    let s4 ← broadcastAdd c4 v4
    let out4 ← liftB B.b4 s4
    let u2 ← liftB B.up2 out4
    let c5 ← catDim1 out2 u2
    let v5 ← teResh P B.te5 n temb
    let s5 ← broadcastAdd c5 v5
    let out5 ← liftB B.b5 s5
    let u3 ← liftB B.up3 out5
    let cO ← catDim1 out1 u3
    let vO ← teResh P B.teOut n temb
    let sO ← broadcastAdd cO vO
    let outO ← liftB B.bOut sO
    liftB B.convOut outO

/-- `MyUNet.forward(x, t)` (UNet.py, lines 114-135):
`t = self.time_embed(t)` followed by the shared body. -/
def myUNetForward (P : UNetParams) (B : UNetBlocks) (x : Tensor)
    (t : IdxTensor) : TRes :=
  match embedLookup P.nSteps P.d P.embW t with
  | Except.ok temb => unetBody P B x temb
  | Except.error e => Except.error e

/-- `UNet_conditional.__init__` (UNet_conditional.py, lines 12-15): the
`label_emb` attribute exists (with `nb_classes` rows of weight `W`)
exactly when `nb_classes is not None`. -/
def mkLabelEmb (nbClasses : Option ℕ) (W : ℕ → ℕ → ℚ) :
    Option (ℕ × (ℕ → ℕ → ℚ)) :=
  nbClasses.map (fun c => (c, W))

/-- `UNet_conditional.forward(x, t, y=None)` (UNet_conditional.py,
lines 17-38): `t = self.time_embed(t)`, `t = torch.squeeze(t)`, then
`if y is not None: t += self.label_emb(y)`, where a missing `label_emb`
attribute raises an AttributeError, and then the shared body. -/
def unetCondForward (P : UNetParams) (B : UNetBlocks)
    (labelEmb : Option (ℕ × (ℕ → ℕ → ℚ))) (x : Tensor) (t : IdxTensor)
    (y : Option IdxTensor) : TRes :=
  match embedLookup P.nSteps P.d P.embW t with
  | Except.error e => Except.error e
  | Except.ok temb0 =>
    let temb1 := squeezeT temb0
    match y with
    | none => unetBody P B x temb1
    | some yy =>
      match labelEmb with
      | none => Except.error TErr.attributeErr
      | some le =>
        match embedLookup le.1 P.d le.2 yy with
        | Except.error e => Except.error e
        | Except.ok lv =>
          match inplaceAdd temb1 lv with
          | Except.error e => Except.error e
          | Except.ok temb => unetBody P B x temb

/-! Concrete instances used to evaluate the definitions on small inputs. -/

/-- A concrete cold-diffusion process with `num_timesteps = 3` over
`Img := ℕ`, every operation returning its input unchanged. -/
def coldM3 : ColdModel ℕ :=
  ColdModel.mk 3 (fun b _ => b) (fun b _ => b) (fun b _ => b) (fun b _ => b)

/-- A concrete cold-diffusion process over flattened `ℚ` batches whose
`reverse` returns its input unchanged. -/
def coldMQ : ColdModel (List ℚ) :=
  ColdModel.mk 3 (fun b _ => b) (fun b _ => b) (fun b _ => b) (fun b _ => b)

/-- A concrete DDPM process with `num_timesteps = 2` over `Img := ℕ`. -/
def ddpmM2 : DDPMModel ℕ ℕ :=
  DDPMModel.mk 2 (fun b _ _ => b) (fun b _ => b) (fun r _ b => r + b)

/-- A concrete DDPM process over flattened `ℚ` batches whose `add_noise`
returns the noise and whose `reverse` returns its input unchanged. -/
def ddpmMQ : DDPMModel (List ℚ) (List ℚ) :=
  DDPMModel.mk 2 (fun _ n _ => n) (fun b _ => b) (fun r _ _ => r)

/-- A concrete conditional DDPM process over flattened `ℚ` batches. -/
def condMQ : DDPMCondModel (List ℚ) (List ℚ) (List ℕ) :=
  DDPMCondModel.mk 2 (fun _ n _ => n) (fun b _ _ => b) (fun r _ _ => r)

/-- A concrete conditional DDPM process over `Img := ℕ`. -/
def condM2 : DDPMCondModel ℕ ℕ (List ℕ) :=
  DDPMCondModel.mk 2 (fun b _ _ => b) (fun b _ _ => b) (fun r _ b => r + b)

/-- A concrete `_make_te` parameter set with output dimension 1. -/
def teW : TEParams :=
  TEParams.mk 1 (fun _ _ => 0) (fun _ => 0) (fun q => q) (fun _ _ => 0) (fun _ => 0)

/-- Concrete shared U-Net scalar parameters: `n_steps = 1`,
`time_emb_dim = 2`, zero embedding weight. -/
def unetPW : UNetParams :=
  UNetParams.mk 1 2 (fun _ _ => 0)

/-- Concrete U-Net layers: all abstract blocks return their input. -/
def unetBW : UNetBlocks :=
  UNetBlocks.mk teW teW teW teW teW teW teW
    (fun v => some v) (fun v => some v) (fun v => some v) (fun v => some v)
    (fun v => some v) (fun v => some v) (fun v => some v) (fun v => some v)
    (fun v => some v) (fun v => some v) (fun v => some v) (fun v => some v)
    (fun v => some v) (fun v => some v)

/-- A concrete input batch of shape `(1, 1, 1, 1)`. -/
def xW : Tensor :=
  Tensor.mk [1, 1, 1, 1] [0]

/-- A concrete timestep tensor of shape `(1,)` holding `t = 0`. -/
def tW : IdxTensor :=
  IdxTensor.mk [1] [0]

/-- A concrete label tensor of shape `(1,)` holding class `0`. -/
def yW : IdxTensor :=
  IdxTensor.mk [1] [0]

/-! ## Lemmas about the cold-diffusion sampling loop -/

theorem coldStep_gt_one {Img : Type} (m : ColdModel Img) (s : ℕ) (a : ℤ)
    (st : ColdState Img) (t : ℕ) (ht : 1 < t) (h1 : a ≠ 1) (h2 : a ≠ 2) :
    coldStep m s a st t = st := by
  simp [coldStep, ht, h1, h2]

theorem coldStep_algo1 {Img : Type} (m : ColdModel Img) (s : ℕ)
    (st : ColdState Img) (t : ℕ) (ht : 1 < t) :
    coldStep m s 1 st t =
      ColdState.mk (m.restore_step_algo1 st.blured (List.replicate s t))
        (st.trace ++ [ColdCall.restore1 (List.replicate s t)]) := by
  simp [coldStep, ht]

theorem coldStep_algo2 {Img : Type} (m : ColdModel Img) (s : ℕ)
    (st : ColdState Img) (t : ℕ) (ht : 1 < t) :
    coldStep m s 2 st t =
      ColdState.mk (m.restore_step_algo2 st.blured (List.replicate s t))
        (st.trace ++ [ColdCall.restore2 (List.replicate s t)]) := by
  simp [coldStep, ht]

theorem coldStep_one {Img : Type} (m : ColdModel Img) (s : ℕ) (a : ℤ)
    (st : ColdState Img) :
    coldStep m s a st 1 =
      ColdState.mk (m.reverse st.blured (List.replicate s 1))
        (st.trace ++ [ColdCall.reverse (List.replicate s 1)]) := by
  simp [coldStep]

theorem coldFold_algo1 {Img : Type} (m : ColdModel Img) (s : ℕ) :
    ∀ (l : List ℕ), (∀ t ∈ l, 1 < t) → ∀ (st : ColdState Img),
      l.foldl (coldStep m s 1) st =
        ColdState.mk
          (l.foldl (fun b t => m.restore_step_algo1 b (List.replicate s t))
            st.blured)
          (st.trace ++
            l.map (fun t => ColdCall.restore1 (List.replicate s t))) := by
  intro l
  induction l with
  | nil => intro _ st; simp
  | cons t l ih =>
    intro hl st
    have ht : 1 < t := hl t (by simp)
    rw [List.foldl_cons, coldStep_algo1 m s st t ht,
      ih (fun u hu => hl u (by simp [hu]))]
    simp

theorem coldFold_algo2 {Img : Type} (m : ColdModel Img) (s : ℕ) :
    ∀ (l : List ℕ), (∀ t ∈ l, 1 < t) → ∀ (st : ColdState Img),
      l.foldl (coldStep m s 2) st =
        ColdState.mk
          (l.foldl (fun b t => m.restore_step_algo2 b (List.replicate s t))
            st.blured)
          (st.trace ++
            l.map (fun t => ColdCall.restore2 (List.replicate s t))) := by
  intro l
  induction l with
  | nil => intro _ st; simp
  | cons t l ih =>
    intro hl st
    have ht : 1 < t := hl t (by simp)
    rw [List.foldl_cons, coldStep_algo2 m s st t ht,
      ih (fun u hu => hl u (by simp [hu]))]
    simp

theorem coldFold_other {Img : Type} (m : ColdModel Img) (s : ℕ) (a : ℤ)
    (h1 : a ≠ 1) (h2 : a ≠ 2) :
    ∀ (l : List ℕ), (∀ t ∈ l, 1 < t) → ∀ (st : ColdState Img),
      l.foldl (coldStep m s a) st = st := by
  intro l
  induction l with
  | nil => intro _ st; rfl
  | cons t l ih =>
    intro hl st
    rw [List.foldl_cons, coldStep_gt_one m s a st t (hl t (by simp)) h1 h2,
      ih (fun u hu => hl u (by simp [hu]))]

theorem cold_timesteps_split (T : ℕ) (hT : 2 ≤ T) :
    (List.range' 1 (T - 1)).reverse =
      (List.range' 2 (T - 2)).reverse ++ [1] := by
  have h : T - 1 = (T - 2) + 1 := by omega
  rw [h, List.range'_succ, List.reverse_cons]

theorem coldStep_trace_gt {Img : Type} (m : ColdModel Img) (s : ℕ) (a : ℤ)
    (st : ColdState Img) (t : ℕ) (ht : 1 < t) :
    (coldStep m s a st t).trace =
      st.trace ++
        ((if a = 1 then [ColdCall.restore1 (List.replicate s t)] else []) ++
          (if a = 2 then [ColdCall.restore2 (List.replicate s t)] else [])) := by
  by_cases ha1 : a = 1
  · by_cases ha2 : a = 2
    · exact absurd (ha1.symm.trans ha2) (by decide)
    · simp [coldStep, ht, ha1, ha2]
  · by_cases ha2 : a = 2
    · simp [coldStep, ht, ha1, ha2]
    · simp [coldStep, ht, ha1, ha2]

theorem coldStep_trace_le {Img : Type} (m : ColdModel Img) (s : ℕ) (a : ℤ)
    (st : ColdState Img) (t : ℕ) (ht : ¬ 1 < t) :
    coldStep m s a st t =
      ColdState.mk (m.reverse st.blured (List.replicate s t))
        (st.trace ++ [ColdCall.reverse (List.replicate s t)]) := by
  simp [coldStep, ht]

theorem mem_cold_mid (T t : ℕ) (ht : t ∈ (List.range' 2 (T - 2)).reverse) :
    1 < t := by
  rw [List.mem_reverse, List.mem_range'_1] at ht
  omega

/-- C1, counterexample to the claim as stated: with `num_timesteps = 3`
and `algoindex = 1`, the reverse sampling loop of `generate_image_cold`
performs restore steps only for `t = 2` (and `reverse` at `t = 1`); no
restore step is performed at `t = T = 3`, contradicting "exactly once for
every t from T down to 2". -/
theorem generate_image_cold_no_restore_at_T :
    (generateImageCold coldM3 (fun b _ => b) 0 1 1).trace =
      [ColdCall.forwardProcess [3], ColdCall.restore1 [2],
        ColdCall.reverse [1]] ∧
    (generateImageCold coldM3 (fun b _ => b) 0 1 1).trace.count
      (ColdCall.restore1 [3]) = 0 := by
  constructor <;> rfl

/-- C1 (amended): for `num_timesteps = T ≥ 2`, `generate_image_cold`
calls `restore_step_algo1` (when `algoindex = 1`) or `restore_step_algo2`
(when `algoindex = 2`) exactly once for every `t` from `T - 1` down to
`2`, in descending order, after the initial `forward_process` at `t = T`;
at `t = 1` it calls `reverse` directly instead of a restore step. -/
theorem generate_image_cold_restore_schedule {Img Frame : Type}
    (m : ColdModel Img) (item : Img → ℕ → Frame) (images : Img) (s : ℕ)
    (hT : 2 ≤ m.num_timesteps) :
    ((generateImageCold m item images s 1).trace =
      ColdCall.forwardProcess (List.replicate s m.num_timesteps) ::
        (((List.range' 2 (m.num_timesteps - 2)).reverse).map
            (fun t => ColdCall.restore1 (List.replicate s t)) ++
          [ColdCall.reverse (List.replicate s 1)])) ∧
    ((generateImageCold m item images s 2).trace =
      ColdCall.forwardProcess (List.replicate s m.num_timesteps) ::
        (((List.range' 2 (m.num_timesteps - 2)).reverse).map
            (fun t => ColdCall.restore2 (List.replicate s t)) ++
          [ColdCall.reverse (List.replicate s 1)])) := by
  constructor
  · simp only [generateImageCold]
    rw [cold_timesteps_split m.num_timesteps hT, List.foldl_append,
      coldFold_algo1 m s _ (mem_cold_mid m.num_timesteps)]
    simp [coldStep_one]
  · simp only [generateImageCold]
    rw [cold_timesteps_split m.num_timesteps hT, List.foldl_append,
      coldFold_algo2 m s _ (mem_cold_mid m.num_timesteps)]
    simp [coldStep_one]

/-- C1, witness: the amended schedule instantiated at `T = 3`. -/
theorem generate_image_cold_restore_schedule_witness :
    2 ≤ coldM3.num_timesteps ∧
    ((generateImageCold coldM3 (fun b _ => b) 0 1 1).trace =
      ColdCall.forwardProcess (List.replicate 1 coldM3.num_timesteps) ::
        (((List.range' 2 (coldM3.num_timesteps - 2)).reverse).map
            (fun t => ColdCall.restore1 (List.replicate 1 t)) ++
          [ColdCall.reverse (List.replicate 1 1)])) ∧
    ((generateImageCold coldM3 (fun b _ => b) 0 1 2).trace =
      ColdCall.forwardProcess (List.replicate 1 coldM3.num_timesteps) ::
        (((List.range' 2 (coldM3.num_timesteps - 2)).reverse).map
            (fun t => ColdCall.restore2 (List.replicate 1 t)) ++
          [ColdCall.reverse (List.replicate 1 1)])) :=
  ⟨by decide,
    (generate_image_cold_restore_schedule coldM3 (fun b _ => b) 0 1
      (by decide)).1,
    (generate_image_cold_restore_schedule coldM3 (fun b _ => b) 0 1
      (by decide)).2⟩

/-- C10: for every `algoindex` other than `1` and `2` (and
`num_timesteps ≥ 2`), `generate_image_cold` performs no restore update:
the degraded batch passes through every step with `t > 1` unchanged, the
only model calls are the initial `forward_process` at `t = T` and the
final `reverse` at `t = 1`, and no error is raised. -/
theorem generate_image_cold_invalid_algoindex {Img Frame : Type}
    (m : ColdModel Img) (item : Img → ℕ → Frame) (images : Img) (s : ℕ)
    (a : ℤ) (hT : 2 ≤ m.num_timesteps) (h1 : a ≠ 1) (h2 : a ≠ 2) :
    (generateImageCold m item images s a).blured =
      m.reverse (m.forward_process images (List.replicate s m.num_timesteps))
        (List.replicate s 1) ∧
    (generateImageCold m item images s a).trace =
      [ColdCall.forwardProcess (List.replicate s m.num_timesteps),
        ColdCall.reverse (List.replicate s 1)] := by
  simp only [generateImageCold]
  rw [cold_timesteps_split m.num_timesteps hT, List.foldl_append,
    coldFold_other m s a h1 h2 _ (mem_cold_mid m.num_timesteps)]
  simp [coldStep_one]

/-- C10, witness: `algoindex = 3` at `T = 3`. -/
theorem generate_image_cold_invalid_algoindex_witness :
    2 ≤ coldM3.num_timesteps ∧ (3 : ℤ) ≠ 1 ∧ (3 : ℤ) ≠ 2 ∧
    ((generateImageCold coldM3 (fun b _ => b) 0 1 3).blured =
      coldM3.reverse
        (coldM3.forward_process 0 (List.replicate 1 coldM3.num_timesteps))
        (List.replicate 1 1) ∧
    (generateImageCold coldM3 (fun b _ => b) 0 1 3).trace =
      [ColdCall.forwardProcess (List.replicate 1 coldM3.num_timesteps),
        ColdCall.reverse (List.replicate 1 1)]) :=
  ⟨by decide, by decide, by decide,
    generate_image_cold_invalid_algoindex coldM3 (fun b _ => b) 0 1 3
      (by decide) (by decide) (by decide)⟩

/-- Every call recorded by the cold sampling loop keeps timestep entries
at least 1, provided the loop list only contains timesteps `≥ 1`. -/
theorem coldFold_ts_ge_one {Img : Type} (m : ColdModel Img) (s : ℕ) (a : ℤ) :
    ∀ (l : List ℕ), (∀ t ∈ l, 1 ≤ t) → ∀ (st : ColdState Img),
      (∀ c ∈ st.trace, ∀ v ∈ c.timesteps, 1 ≤ v) →
      ∀ c ∈ (l.foldl (coldStep m s a) st).trace, ∀ v ∈ c.timesteps, 1 ≤ v := by
  intro l
  induction l with
  | nil => intro _ st hst; exact hst
  | cons t l ih =>
    intro hl st hst
    rw [List.foldl_cons]
    refine ih (fun u hu => hl u (by simp [hu])) _ ?_
    have ht : 1 ≤ t := hl t (by simp)
    have hrep : ∀ v ∈ List.replicate s t, 1 ≤ v := by
      intro v hv
      rcases List.eq_of_mem_replicate hv with rfl
      exact ht
    intro c hc
    by_cases h1t : 1 < t
    · rw [coldStep_trace_gt m s a st t h1t] at hc
      rcases List.mem_append.mp hc with hc | hc
      · exact hst c hc
      · rcases List.mem_append.mp hc with hc | hc <;> split at hc <;>
          simp only [List.mem_singleton, List.not_mem_nil] at hc <;>
          first
            | exact absurd hc (by simp)
            | (subst hc; simpa [ColdCall.timesteps] using hrep)
    · rw [coldStep_trace_le m s a st t h1t] at hc
      rcases List.mem_append.mp hc with hc | hc
      · exact hst c hc
      · rcases List.mem_singleton.mp hc with rfl
        simpa [ColdCall.timesteps] using hrep

/-- C4: with `num_timesteps ≥ 2`, every timestep tensor passed to a
cold-diffusion operation (`forward_process`, `restore_step_algo1`,
`restore_step_algo2`, `reverse`) by `training_loop_cold` or by
`generate_image_cold` (for any `algoindex`) has all entries `≥ 1`; a
timestep of `0` is never passed. -/
theorem cold_timesteps_never_zero {Img Frame : Type} (mG : ColdModel Img)
    (item : Img → ℕ → Frame) (images : Img) (s : ℕ) (a : ℤ)
    (T bsz : ℕ) (g : ℕ → ℕ) (hT : 2 ≤ T) (hTG : 2 ≤ mG.num_timesteps) :
    (∀ c ∈ coldTrainCalls T bsz g, ∀ v ∈ c.timesteps, 1 ≤ v) ∧
    (∀ c ∈ (generateImageCold mG item images s a).trace,
      ∀ v ∈ c.timesteps, 1 ≤ v) := by
  constructor
  · intro c hc v hv
    have hdraw : ∀ u ∈ drawTimestepsCold T bsz g, 1 ≤ u := by
      intro u hu
      rcases List.mem_map.mp hu with ⟨k, _, rfl⟩
      simp [torchRandint]
    simp only [coldTrainCalls, List.mem_cons, List.not_mem_nil,
      or_false] at hc
    rcases hc with rfl | rfl <;>
      exact hdraw v (by simpa [ColdCall.timesteps] using hv)
  · simp only [generateImageCold]
    refine coldFold_ts_ge_one mG s a _ ?_ _ ?_
    · intro t ht
      rw [List.mem_reverse, List.mem_range'_1] at ht
      omega
    · intro c hc v hv
      simp only [List.mem_singleton] at hc
      subst hc
      simp only [ColdCall.timesteps] at hv
      rcases List.eq_of_mem_replicate hv with rfl
      omega

/-- C4, witness: the cold training draws and the `T = 3` sampling trace,
with a concrete random source. -/
theorem cold_timesteps_never_zero_witness :
    2 ≤ 3 ∧ 2 ≤ coldM3.num_timesteps ∧
    ((∀ c ∈ coldTrainCalls 3 2 (fun k => k), ∀ v ∈ c.timesteps, 1 ≤ v) ∧
    (∀ c ∈ (generateImageCold coldM3 (fun b _ => b) 0 1 1).trace,
      ∀ v ∈ c.timesteps, 1 ≤ v)) :=
  ⟨by decide, by decide,
    cold_timesteps_never_zero coldM3 (fun b _ => b) 0 1 1 3 2 (fun k => k)
      (by decide) (by decide)⟩

/-! ## Lemmas about the DDPM sampling loops -/

theorem genStep_trace {Img Res Frame : Type} (m : DDPMModel Img Res)
    (sq : Img → Img) (item : Img → ℕ → Frame) (s : ℕ)
    (st : GenState Img Frame) (t : ℕ) :
    (genStep m sq item s st t).trace =
      st.trace ++ [DCall.reverseCall t, DCall.stepCall t] := rfl

theorem genStep_sample {Img Res Frame : Type} (m : DDPMModel Img Res)
    (sq : Img → Img) (item : Img → ℕ → Frame) (s : ℕ)
    (st : GenState Img Frame) (t : ℕ) :
    (genStep m sq item s st t).sample = ddpmSampleStep m s st.sample t := rfl

theorem genFold_trace {Img Res Frame : Type} (m : DDPMModel Img Res)
    (sq : Img → Img) (item : Img → ℕ → Frame) (s : ℕ) :
    ∀ (l : List ℕ) (st : GenState Img Frame),
      (l.foldl (genStep m sq item s) st).trace =
        st.trace ++
          l.flatMap (fun t => [DCall.reverseCall t, DCall.stepCall t]) := by
  intro l
  induction l with
  | nil => intro st; simp
  | cons t l ih =>
    intro st
    rw [List.foldl_cons, ih, genStep_trace]
    simp

theorem genFold_sample {Img Res Frame : Type} (m : DDPMModel Img Res)
    (sq : Img → Img) (item : Img → ℕ → Frame) (s : ℕ) :
    ∀ (l : List ℕ) (st : GenState Img Frame),
      (l.foldl (genStep m sq item s) st).sample =
        l.foldl (ddpmSampleStep m s) st.sample := by
  intro l
  induction l with
  | nil => intro st; rfl
  | cons t l ih =>
    intro st
    rw [List.foldl_cons, ih, genStep_sample, List.foldl_cons]

theorem genFold_framesMid_stable {Img Res Frame : Type}
    (m : DDPMModel Img Res) (sq : Img → Img) (item : Img → ℕ → Frame)
    (s : ℕ) :
    ∀ (l : List ℕ), (∀ t ∈ l, t ≠ 500) → ∀ (st : GenState Img Frame),
      (l.foldl (genStep m sq item s) st).framesMid = st.framesMid := by
  intro l
  induction l with
  | nil => intro _ st; rfl
  | cons t l ih =>
    intro hl st
    rw [List.foldl_cons, ih (fun u hu => hl u (by simp [hu]))]
    simp [genStep, hl t (by simp)]

/-- Closed form of the `frames_mid` list collected by `generate_image`:
it is empty unless `500 < num_timesteps`, in which case it holds one
frame per sample of the squeezed sample immediately after the step at
`t = 500`. -/
theorem generateImage_framesMid_closed {Img Res Frame : Type}
    (m : DDPMModel Img Res) (sq : Img → Img) (item : Img → ℕ → Frame)
    (gauss : Img) (s : ℕ) :
    (generateImage m sq item gauss s).framesMid =
      if 500 < m.num_timesteps then
        (List.range s).map (fun i =>
          item (sq (((List.range' 500 (m.num_timesteps - 500)).reverse).foldl
            (ddpmSampleStep m s) gauss)) i)
      else [] := by
  by_cases hT : 500 < m.num_timesteps
  · rw [if_pos hT]
    have h1 : List.range m.num_timesteps =
        List.range' 0 500 ++ List.range' 500 (m.num_timesteps - 500) := by
      rw [List.range_eq_range']
      have h := List.range'_append 0 500 (m.num_timesteps - 500) 1
      simp only [one_mul, zero_add] at h
      have h0 : m.num_timesteps - 500 + 500 = m.num_timesteps := by omega
      rw [h0] at h
      exact h.symm
    have h2 : List.range' 500 (m.num_timesteps - 500) =
        500 :: List.range' 501 (m.num_timesteps - 501) := by
      have h : m.num_timesteps - 500 = (m.num_timesteps - 501) + 1 := by
        omega
      rw [h, List.range'_succ]
    have h3 : (List.range' 500 (m.num_timesteps - 500)).reverse =
        (List.range' 501 (m.num_timesteps - 501)).reverse ++ [500] := by
      rw [h2, List.reverse_cons]
    simp only [generateImage]
    rw [h1, List.reverse_append, h3, List.foldl_append, List.foldl_append,
      List.foldl_cons, List.foldl_nil]
    rw [genFold_framesMid_stable m sq item s _
      (fun u hu => by
        rw [List.mem_reverse, List.mem_range'_1] at hu
        omega)]
    have hC : (((List.range' 501 (m.num_timesteps - 501)).reverse).foldl
        (genStep m sq item s) (GenState.mk gauss [] [])).framesMid = [] :=
      genFold_framesMid_stable m sq item s _
        (fun u hu => by
          rw [List.mem_reverse, List.mem_range'_1] at hu
          omega) _
    simp only [genStep, if_pos rfl, hC, List.nil_append, genFold_sample, h3,
      List.foldl_append, List.foldl_cons, List.foldl_nil]
    rfl
  · rw [if_neg hT]
    simp only [generateImage]
    exact genFold_framesMid_stable m sq item s _
      (fun u hu => by
        rw [List.mem_reverse, List.mem_range] at hu
        omega) _

/-- `generate_image_conditional` is `generate_image` for the model whose
`reverse` closes over the fixed label batch. -/
theorem generateImageConditional_eq {Img Res Lab Frame : Type}
    (m : DDPMCondModel Img Res Lab) (labels : Lab) (sq : Img → Img)
    (item : Img → ℕ → Frame) (gauss : Img) (s : ℕ) :
    generateImageConditional m labels sq item gauss s =
      generateImage
        (DDPMModel.mk m.num_timesteps m.add_noise
          (fun x ts => m.reverse x ts labels) m.step) sq item gauss s := rfl

/-- C2: `generate_image` starts from the Gaussian seed and, for each
timestep `t` from `num_timesteps - 1` down to `0` in descending order,
calls `reverse` then `step` exactly once; the sample is updated only by
those `step` calls, so the final sample is the fold of the
reverse-then-step update over the descending timesteps starting from the
seed. -/
theorem generate_image_reverse_step_schedule {Img Res Frame : Type}
    (m : DDPMModel Img Res) (sq : Img → Img) (item : Img → ℕ → Frame)
    (gauss : Img) (s : ℕ) :
    (generateImage m sq item gauss s).trace =
      ((List.range m.num_timesteps).reverse).flatMap
        (fun t => [DCall.reverseCall t, DCall.stepCall t]) ∧
    (generateImage m sq item gauss s).sample =
      ((List.range m.num_timesteps).reverse).foldl
        (ddpmSampleStep m s) gauss := by
  constructor
  · simp only [generateImage]
    rw [genFold_trace]
    simp
  · simp only [generateImage]
    rw [genFold_sample]

/-- C7: `generate_image` and `generate_image_conditional` capture the
mid-trajectory snapshot exactly when the descending loop reaches
`t = 500`, immediately after the step at `t = 500`; when
`num_timesteps ≤ 500` the returned `frames_mid` is empty, otherwise it
holds exactly `sample_size` frames. -/
theorem generate_image_mid_snapshot {Img Res Frame Img2 Res2 Lab : Type}
    (m : DDPMModel Img Res) (sq : Img → Img) (item : Img → ℕ → Frame)
    (gauss : Img) (mc : DDPMCondModel Img2 Res2 Lab) (labels : Lab)
    (sqc : Img2 → Img2) (itemc : Img2 → ℕ → Frame) (gaussc : Img2)
    (s : ℕ) :
    ((generateImage m sq item gauss s).framesMid =
      if 500 < m.num_timesteps then
        (List.range s).map (fun i =>
          item (sq (((List.range' 500 (m.num_timesteps - 500)).reverse).foldl
            (ddpmSampleStep m s) gauss)) i)
      else []) ∧
    ((generateImage m sq item gauss s).framesMid.length =
      if m.num_timesteps ≤ 500 then 0 else s) ∧
    ((generateImageConditional mc labels sqc itemc gaussc s).framesMid =
      if 500 < mc.num_timesteps then
        (List.range s).map (fun i =>
          itemc (sqc (((List.range' 500 (mc.num_timesteps - 500)).reverse).foldl
            (condSampleStep mc labels s) gaussc)) i)
      else []) ∧
    ((generateImageConditional mc labels sqc itemc gaussc s).framesMid.length =
      if mc.num_timesteps ≤ 500 then 0 else s) := by
  have hu := generateImage_framesMid_closed m sq item gauss s
  have hc := generateImage_framesMid_closed
    (DDPMModel.mk mc.num_timesteps mc.add_noise
      (fun x ts => mc.reverse x ts labels) mc.step) sqc itemc gaussc s
  rw [← generateImageConditional_eq] at hc
  refine ⟨hu, ?_, hc, ?_⟩
  · rw [hu]
    by_cases hT : 500 < m.num_timesteps
    · rw [if_pos hT, if_neg (by omega)]
      simp
    · rw [if_neg hT, if_pos (by omega)]
      rfl
  · rw [hc]
    by_cases hT : 500 < mc.num_timesteps
    · rw [if_pos hT, if_neg (by omega)]
      simp
    · rw [if_neg hT, if_pos (by omega)]
      rfl

/-! ## Training-loop timestep distribution and loss targets -/

/-- C5: the DDPM and conditional training loops draw each per-sample
timestep from `[0, num_timesteps)` and the cold training loop from
`[1, num_timesteps)`; in each case the draw is uniform: every value of
the stated range is hit by exactly one value of the uniform residue the
`torch.randint` model consumes. -/
theorem training_timestep_distribution (T bsz : ℕ) (g : ℕ → ℕ)
    (hT : 2 ≤ T) :
    (∀ v ∈ drawTimestepsDDPM T bsz g, v < T) ∧
    (∀ v ∈ drawTimestepsCondit T bsz g, v < T) ∧
    (∀ v ∈ drawTimestepsCold T bsz g, 1 ≤ v ∧ v < T) ∧
    (∀ v, v < T →
      (Finset.filter (fun u => torchRandint 0 T (fun _ => u) 0 = v)
        (Finset.range T)).card = 1) ∧
    (∀ v, 1 ≤ v → v < T →
      (Finset.filter (fun u => torchRandint 1 T (fun _ => u) 0 = v)
        (Finset.range (T - 1))).card = 1) := by
  refine ⟨?_, ?_, ?_, ?_, ?_⟩
  · intro v hv
    rcases List.mem_map.mp hv with ⟨k, _, rfl⟩
    simp only [torchRandint, Nat.sub_zero, Nat.zero_add]
    exact Nat.mod_lt _ (by omega)
  · intro v hv
    rcases List.mem_map.mp hv with ⟨k, _, rfl⟩
    simp only [torchRandint, Nat.sub_zero, Nat.zero_add]
    exact Nat.mod_lt _ (by omega)
  · intro v hv
    rcases List.mem_map.mp hv with ⟨k, _, rfl⟩
    have hmod : g k % (T - 1) < T - 1 := Nat.mod_lt _ (by omega)
    simp only [torchRandint]
    omega
  · intro v hv
    have heq : Finset.filter (fun u => torchRandint 0 T (fun _ => u) 0 = v)
        (Finset.range T) = Finset.filter (fun u => u = v) (Finset.range T) := by
      apply Finset.filter_congr
      intro u hu
      rw [Finset.mem_range] at hu
      simp [torchRandint, Nat.mod_eq_of_lt hu]
    rw [heq, Finset.filter_eq', if_pos (Finset.mem_range.mpr hv),
      Finset.card_singleton]
  · intro v hv1 hvT
    have heq : Finset.filter (fun u => torchRandint 1 T (fun _ => u) 0 = v)
        (Finset.range (T - 1)) =
          Finset.filter (fun u => u = v - 1) (Finset.range (T - 1)) := by
      apply Finset.filter_congr
      intro u hu
      rw [Finset.mem_range] at hu
      simp only [torchRandint, Nat.mod_eq_of_lt hu, eq_iff_iff]
      omega
    rw [heq, Finset.filter_eq', if_pos (Finset.mem_range.mpr (by omega)),
      Finset.card_singleton]

/-- C5, witness: `T = 3`, batch size 2, identity random source. -/
theorem training_timestep_distribution_witness :
    2 ≤ 3 ∧
    ((∀ v ∈ drawTimestepsDDPM 3 2 (fun k => k), v < 3) ∧
    (∀ v ∈ drawTimestepsCondit 3 2 (fun k => k), v < 3) ∧
    (∀ v ∈ drawTimestepsCold 3 2 (fun k => k), 1 ≤ v ∧ v < 3) ∧
    (∀ v, v < 3 →
      (Finset.filter (fun u => torchRandint 0 3 (fun _ => u) 0 = v)
        (Finset.range 3)).card = 1) ∧
    (∀ v, 1 ≤ v → v < 3 →
      (Finset.filter (fun u => torchRandint 1 3 (fun _ => u) 0 = v)
        (Finset.range 2)).card = 1)) :=
  ⟨by decide, training_timestep_distribution 3 2 (fun k => k) (by decide)⟩

theorem zipWithSq_nonneg :
    ∀ (a b : List ℚ), 0 ≤ (List.zipWith (fun x y => (x - y) ^ 2) a b).sum := by
  intro a
  induction a with
  | nil => intro b; simp
  | cons x a ih =>
    intro b
    cases b with
    | nil => simp
    | cons y b =>
      simp only [List.zipWith_cons_cons, List.sum_cons]
      exact add_nonneg (sq_nonneg _) (ih b)

theorem zipWithSq_eq_zero_iff :
    ∀ (a b : List ℚ), a.length = b.length →
      ((List.zipWith (fun x y => (x - y) ^ 2) a b).sum = 0 ↔ a = b) := by
  intro a
  induction a with
  | nil =>
    intro b h
    cases b with
    | nil => simp
    | cons y b => simp at h
  | cons x a ih =>
    intro b h
    cases b with
    | nil => simp at h
    | cons y b =>
      simp only [List.zipWith_cons_cons, List.sum_cons]
      have hlen : a.length = b.length := by simpa using h
      constructor
      · intro h0
        have hsplit := (add_eq_zero_iff_of_nonneg (sq_nonneg (x - y))
          (zipWithSq_nonneg a b)).mp h0
        have hx : x = y := sub_eq_zero.mp (sq_eq_zero_iff.mp hsplit.1)
        have hrest : a = b := (ih b hlen).mp hsplit.2
        rw [hx, hrest]
      · intro h0
        injection h0 with hx hrest
        subst hx
        subst hrest
        have hz : (List.zipWith (fun u v => (u - v) ^ 2) a a).sum = 0 :=
          (ih a rfl).mpr rfl
        simp only [sub_self, hz]
        simp

/-- `F.mse_loss(input, target)` vanishes exactly when the prediction
equals the target (for same-length flattened tensors). -/
theorem mseLoss_eq_zero_iff (a b : List ℚ) (h : a.length = b.length) :
    mseLoss a b = 0 ↔ a = b := by
  unfold mseLoss
  rcases Nat.eq_zero_or_pos a.length with hl | hl
  · have ha : a = [] := List.eq_nil_of_length_eq_zero hl
    have hb : b = [] := List.eq_nil_of_length_eq_zero (by omega)
    simp [ha, hb]
  · have hne : (a.length : ℚ) ≠ 0 := Nat.cast_ne_zero.mpr (by omega)
    rw [div_eq_zero_iff, or_iff_left hne]
    exact zipWithSq_eq_zero_iff a b h

/-- C6: the MSE loss of each training loop vanishes exactly when the
network prediction matches the process's target: the Gaussian noise
passed to `add_noise` for `training_loop` and
`training_loop_conditional`, and the clean input batch for
`training_loop_cold`. -/
theorem training_loss_targets
    (mD : DDPMModel (List ℚ) (List ℚ))
    (mC : DDPMCondModel (List ℚ) (List ℚ) (List ℕ))
    (mK : ColdModel (List ℚ))
    (batch noise imagesC noiseC batchK : List ℚ) (labels : List ℕ)
    (TD TC TK bszD bszC bszK : ℕ) (gD gC gK : ℕ → ℕ)
    (h1 : (ddpmPred mD batch noise TD bszD gD).length = noise.length)
    (h2 : (condPred mC imagesC noiseC labels TC bszC gC).length =
      noiseC.length)
    (h3 : (coldPred mK batchK TK bszK gK).length = batchK.length) :
    (ddpmTrainLoss mD batch noise TD bszD gD = 0 ↔
      ddpmPred mD batch noise TD bszD gD = noise) ∧
    (condTrainLoss mC imagesC noiseC labels TC bszC gC = 0 ↔
      condPred mC imagesC noiseC labels TC bszC gC = noiseC) ∧
    (coldTrainLoss mK batchK TK bszK gK = 0 ↔
      coldPred mK batchK TK bszK gK = batchK) :=
  ⟨mseLoss_eq_zero_iff _ _ h1, mseLoss_eq_zero_iff _ _ h2,
    mseLoss_eq_zero_iff _ _ h3⟩

/-- C6, witness: concrete batches and oracle networks. -/
theorem training_loss_targets_witness :
    (ddpmPred ddpmMQ [1, 2] [3, 4] 2 2 (fun k => k)).length =
      ([3, 4] : List ℚ).length ∧
    (condPred condMQ [1, 2] [3, 4] [0, 1] 2 2 (fun k => k)).length =
      ([3, 4] : List ℚ).length ∧
    (coldPred coldMQ [5, 6] 3 2 (fun k => k)).length =
      ([5, 6] : List ℚ).length ∧
    ((ddpmTrainLoss ddpmMQ [1, 2] [3, 4] 2 2 (fun k => k) = 0 ↔
      ddpmPred ddpmMQ [1, 2] [3, 4] 2 2 (fun k => k) = [3, 4]) ∧
    (condTrainLoss condMQ [1, 2] [3, 4] [0, 1] 2 2 (fun k => k) = 0 ↔
      condPred condMQ [1, 2] [3, 4] [0, 1] 2 2 (fun k => k) = [3, 4]) ∧
    (coldTrainLoss coldMQ [5, 6] 3 2 (fun k => k) = 0 ↔
      coldPred coldMQ [5, 6] 3 2 (fun k => k) = [5, 6])) :=
  ⟨rfl, rfl, rfl,
    training_loss_targets ddpmMQ condMQ coldMQ [1, 2] [3, 4] [1, 2] [3, 4]
      [5, 6] [0, 1] 2 2 3 2 2 2 (fun k => k) (fun k => k) (fun k => k)
      rfl rfl rfl⟩

/-! ## Lemmas about fancy-index row assignment and `sinusoidal_embedding` -/

theorem rowSet_getD_ne (l : List (List ℚ)) (i j : ℕ) (r : List ℚ)
    (h : i ≠ j) : (l.set i r).getD j [] = l.getD j [] := by
  simp [List.getD_eq_getElem?_getD, List.getElem?_set_ne h]

theorem rowSet_getD_self (l : List (List ℚ)) (i : ℕ) (r : List ℚ)
    (h : i < l.length) : (l.set i r).getD i [] = r := by
  rw [List.getD_eq_getElem?_getD, List.getElem?_set_self (by simpa using h)]
  rfl

theorem scatterFold_length :
    ∀ (l : List (ℤ × List ℚ)) (M : List (List ℚ)),
      (l.foldl (fun A p => A.set (wrapIdx A.length p.1) p.2) M).length =
        M.length := by
  intro l
  induction l with
  | nil => intro M; rfl
  | cons p l ih =>
    intro M
    simp only [List.foldl_cons]
    rw [ih, List.length_set]

theorem scatterFold_stable :
    ∀ (l : List (ℤ × List ℚ)) (M : List (List ℚ)) (n i : ℕ),
      M.length = n → (∀ p ∈ l, wrapIdx n p.1 ≠ i) →
      (l.foldl (fun A p => A.set (wrapIdx A.length p.1) p.2) M).getD i [] =
        M.getD i [] := by
  intro l
  induction l with
  | nil => intro M n i _ _; rfl
  | cons p l ih =>
    intro M n i hn hl
    simp only [List.foldl_cons]
    rw [ih (M.set (wrapIdx M.length p.1) p.2) n i
      (by rw [List.length_set, hn]) (fun q hq => hl q (by simp [hq])), hn]
    exact rowSet_getD_ne M _ i p.2 (hl p (by simp))

theorem scatterZip_getD :
    ∀ (idxs : List ℤ) (rows M : List (List ℚ)) (n k : ℕ)
      (hn : M.length = n) (hk : k < idxs.length) (hkr : k < rows.length),
      (∀ j1 j2 (h1 : j1 < idxs.length) (h2 : j2 < idxs.length),
        wrapIdx n (idxs.get ⟨j1, h1⟩) = wrapIdx n (idxs.get ⟨j2, h2⟩) →
        j1 = j2) →
      wrapIdx n (idxs.get ⟨k, hk⟩) < n →
      ((idxs.zip rows).foldl
        (fun A p => A.set (wrapIdx A.length p.1) p.2) M).getD
          (wrapIdx n (idxs.get ⟨k, hk⟩)) [] = rows.get ⟨k, hkr⟩ := by
  intro idxs
  induction idxs with
  | nil =>
    intro rows M n k hn hk
    exact absurd hk (by simp)
  | cons z idxs ih =>
    intro rows M n k hn hk hkr hinj hv
    cases rows with
    | nil => exact absurd hkr (by simp)
    | cons r rows =>
      simp only [List.zip_cons_cons, List.foldl_cons]
      cases k with
      | zero =>
        have hz : (z :: idxs).get ⟨0, hk⟩ = z := rfl
        rw [hz] at hv ⊢
        rw [scatterFold_stable (idxs.zip rows) _ n _
          (by rw [List.length_set, hn]) ?stable, hn]
        · exact rowSet_getD_self M (wrapIdx n z) r (hn ▸ hv)
        case stable =>
          intro p hp heq
          have hp1 : p.1 ∈ idxs := (List.of_mem_zip hp).1
          obtain ⟨⟨j, hj⟩, hjeq⟩ := List.mem_iff_get.mp hp1
          have hj1 : j + 1 < (z :: idxs).length := by simpa using hj
          have hget : (z :: idxs).get ⟨j + 1, hj1⟩ = p.1 := hjeq
          have h0 : (0 : ℕ) < (z :: idxs).length := by simp
          have := hinj (j + 1) 0 hj1 h0 (by rw [hget, hz, heq])
          omega
      | succ k =>
        have hk' : k < idxs.length := by simpa using hk
        have hkr' : k < rows.length := by simpa using hkr
        have hgs : (z :: idxs).get ⟨k + 1, hk⟩ = idxs.get ⟨k, hk'⟩ := rfl
        rw [hgs] at hv ⊢
        have hinj' : ∀ j1 j2 (h1 : j1 < idxs.length) (h2 : j2 < idxs.length),
            wrapIdx n (idxs.get ⟨j1, h1⟩) = wrapIdx n (idxs.get ⟨j2, h2⟩) →
            j1 = j2 := by
          intro j1 j2 h1 h2 he
          have hj1 : j1 + 1 < (z :: idxs).length := by simpa using h1
          have hj2 : j2 + 1 < (z :: idxs).length := by simpa using h2
          have := hinj (j1 + 1) (j2 + 1) hj1 hj2 (by
            have e1 : (z :: idxs).get ⟨j1 + 1, hj1⟩ = idxs.get ⟨j1, h1⟩ := rfl
            have e2 : (z :: idxs).get ⟨j2 + 1, hj2⟩ = idxs.get ⟨j2, h2⟩ := rfl
            rw [e1, e2, he])
          omega
        have hres := ih rows (M.set (wrapIdx M.length z) r) n k
          (by rw [List.length_set, hn]) hk' hkr' hinj' hv
        exact hres

theorem wrapIdx_nat (n j : ℕ) (h : j < n) : wrapIdx n (j : ℤ) = j := by
  unfold wrapIdx
  rw [Int.emod_eq_of_lt (by positivity) (by exact_mod_cast h)]
  simp

theorem wrapIdx_one_sub (n k : ℕ) (hn : 2 ≤ n) (hk : 2 * k < n) :
    wrapIdx n (1 - 2 * (k : ℤ)) = if k = 0 then 1 else n + 1 - 2 * k := by
  cases k with
  | zero =>
    simp only [Nat.cast_zero, mul_zero, sub_zero, if_pos rfl]
    have := wrapIdx_nat n 1 (by omega)
    simpa using this
  | succ k =>
    rw [if_neg (by omega)]
    unfold wrapIdx
    have hstep : (1 - 2 * ((k : ℤ) + 1)) % (n : ℤ) =
        (1 - 2 * ((k : ℤ) + 1) + n) % (n : ℤ) := by
      have := Int.add_mul_emod_self_left (1 - 2 * ((k : ℤ) + 1)) (n : ℤ) 1
      simpa using this.symm
    have hlt : 1 - 2 * ((k : ℤ) + 1) + n < n := by
      push_cast
      omega
    have hge : 0 ≤ 1 - 2 * ((k : ℤ) + 1) + n := by
      push_cast at hk ⊢
      omega
    push_cast
    rw [hstep, Int.emod_eq_of_lt hge (by push_cast; omega)]
    omega

theorem rowsInit_getD (n d : ℕ) (w : ℕ → ℚ) (i : ℕ) (hi : i < n) :
    ((List.range n).map (fun i =>
      (List.range d).map (fun j => rawAngle w i j))).getD i [] =
      (List.range d).map (fun j => rawAngle w i j) := by
  rw [List.getD_eq_getElem?_getD, List.getElem?_map, List.getElem?_range hi]
  rfl

theorem get_map_list {α β : Type} (f : α → β) (l : List α) (k : ℕ)
    (h : k < (l.map f).length) :
    (l.map f).get ⟨k, h⟩ = f (l.get ⟨k, by simpa using h⟩) := by
  simp

theorem wrapIdx_two_mul (n k : ℕ) (hk2 : 2 * k < n) :
    wrapIdx n (2 * (k : ℤ)) = 2 * k := by
  have h := wrapIdx_nat n (2 * k) hk2
  push_cast at h
  exact h

theorem sinMask_get (n k : ℕ) (hk : k < (sinMask n).length) :
    (sinMask n).get ⟨k, hk⟩ = 2 * (k : ℤ) := by
  simp only [List.get_eq_getElem, sinMask, List.getElem_map,
    List.getElem_range]

theorem sinMask_length (n : ℕ) : (sinMask n).length = (n + 1) / 2 := by
  simp only [sinMask, List.length_map, List.length_range]

theorem emb1_getD (n d : ℕ) (w : ℕ → ℚ) (sinF : ℚ → ℚ) (k : ℕ)
    (hk2 : 2 * k < n) :
    (scatterRows
        ((List.range n).map (fun i =>
          (List.range d).map (fun j => rawAngle w i j)))
        (sinMask n)
        ((gatherRows
            ((List.range n).map (fun i =>
              (List.range d).map (fun j => rawAngle w i j)))
            (sinMask n)).map (List.map sinF))).getD (2 * k) [] =
      List.map sinF ((List.range d).map (fun j => rawAngle w (2 * k) j)) := by
  have hlen0 : ((List.range n).map (fun i =>
      (List.range d).map (fun j => rawAngle w i j))).length = n := by simp
  have hk : k < (sinMask n).length := by
    rw [sinMask_length]
    omega
  have hkr : k < ((gatherRows
      ((List.range n).map (fun i =>
        (List.range d).map (fun j => rawAngle w i j)))
      (sinMask n)).map (List.map sinF)).length := by
    simp only [List.length_map, gatherRows]
    exact hk
  have hinj : ∀ j1 j2 (h1 : j1 < (sinMask n).length)
      (h2 : j2 < (sinMask n).length),
      wrapIdx n ((sinMask n).get ⟨j1, h1⟩) =
        wrapIdx n ((sinMask n).get ⟨j2, h2⟩) → j1 = j2 := by
    intro j1 j2 h1 h2 he
    rw [sinMask_get n j1 h1, sinMask_get n j2 h2] at he
    rw [sinMask_length] at h1 h2
    rw [wrapIdx_two_mul n j1 (by omega), wrapIdx_two_mul n j2 (by omega)] at he
    omega
  have hv : wrapIdx n ((sinMask n).get ⟨k, hk⟩) < n := by
    rw [sinMask_get n k hk, wrapIdx_two_mul n k hk2]
    exact hk2
  have hmain := scatterZip_getD (sinMask n) _ _ n k hlen0 hk hkr hinj hv
  rw [sinMask_get n k hk, wrapIdx_two_mul n k hk2] at hmain
  rw [scatterRows, hmain]
  simp only [List.get_eq_getElem, List.getElem_map, gatherRows, sinMask,
    List.getElem_range, List.length_map, List.length_range,
    wrapIdx_two_mul n k hk2]
  rw [rowsInit_getD n d w (2 * k) hk2]

theorem wrap_one_sub_inj (n : ℕ) (hn : 2 ≤ n) (j1 j2 : ℕ) (h1 : 2 * j1 < n)
    (h2 : 2 * j2 < n)
    (he : wrapIdx n (1 - 2 * (j1 : ℤ)) = wrapIdx n (1 - 2 * (j2 : ℤ))) :
    j1 = j2 := by
  rw [wrapIdx_one_sub n j1 hn h1, wrapIdx_one_sub n j2 hn h2] at he
  rcases Nat.eq_zero_or_pos j1 with hj1 | hj1 <;>
    rcases Nat.eq_zero_or_pos j2 with hj2 | hj2
  · omega
  · subst hj1
    rw [if_pos rfl, if_neg (by omega)] at he
    omega
  · subst hj2
    rw [if_neg (by omega), if_pos rfl] at he
    omega
  · rw [if_neg (by omega), if_neg (by omega)] at he
    omega

theorem sinEmb_getD (n d : ℕ) (w : ℕ → ℚ) (sinF cosF : ℚ → ℚ) (hn : 2 ≤ n)
    (k : ℕ) (hkm : k < (n + 1) / 2) :
    (sinusoidalEmbedding n d w sinF cosF).getD
      (wrapIdx n (1 - 2 * (k : ℤ))) [] =
      List.map cosF (List.map sinF
        ((List.range d).map (fun j => rawAngle w (2 * k) j))) := by
  have hk2 : 2 * k < n := by omega
  simp only [sinusoidalEmbedding]
  have hlen1 : (scatterRows
      ((List.range n).map (fun i =>
        (List.range d).map (fun j => rawAngle w i j)))
      (sinMask n)
      ((gatherRows
          ((List.range n).map (fun i =>
            (List.range d).map (fun j => rawAngle w i j)))
          (sinMask n)).map (List.map sinF))).length = n := by
    rw [scatterRows, scatterFold_length]
    simp
  have hk : k < ((sinMask n).map (fun z => 1 - z)).length := by
    rw [List.length_map, sinMask_length]
    exact hkm
  have hget2 : ∀ j (hj : j < ((sinMask n).map (fun z => 1 - z)).length),
      ((sinMask n).map (fun z => 1 - z)).get ⟨j, hj⟩ = 1 - 2 * (j : ℤ) := by
    intro j hj
    simp only [List.get_eq_getElem, List.getElem_map, sinMask,
      List.getElem_range]
  have hkr : k < ((gatherRows
      (scatterRows
        ((List.range n).map (fun i =>
          (List.range d).map (fun j => rawAngle w i j)))
        (sinMask n)
        ((gatherRows
            ((List.range n).map (fun i =>
              (List.range d).map (fun j => rawAngle w i j)))
            (sinMask n)).map (List.map sinF)))
      (sinMask n)).map (List.map cosF)).length := by
    simp only [List.length_map, gatherRows, sinMask_length]
    exact hkm
  have hinj : ∀ j1 j2 (h1 : j1 < ((sinMask n).map (fun z => 1 - z)).length)
      (h2 : j2 < ((sinMask n).map (fun z => 1 - z)).length),
      wrapIdx n (((sinMask n).map (fun z => 1 - z)).get ⟨j1, h1⟩) =
        wrapIdx n (((sinMask n).map (fun z => 1 - z)).get ⟨j2, h2⟩) →
      j1 = j2 := by
    intro j1 j2 h1 h2 he
    rw [hget2 j1 h1, hget2 j2 h2] at he
    rw [List.length_map, sinMask_length] at h1 h2
    exact wrap_one_sub_inj n hn j1 j2 (by omega) (by omega) he
  have hv : wrapIdx n (((sinMask n).map (fun z => 1 - z)).get ⟨k, hk⟩) < n := by
    rw [hget2 k hk, wrapIdx_one_sub n k hn hk2]
    split <;> omega
  have hmain := scatterZip_getD ((sinMask n).map (fun z => 1 - z)) _ _ n k
    hlen1 hk hkr hinj hv
  rw [hget2 k hk] at hmain
  rw [scatterRows, hmain]
  have hemb1 := emb1_getD n d w sinF k hk2
  simp only [List.get_eq_getElem, List.getElem_map, gatherRows, sinMask,
    List.getElem_range] at hemb1 hlen1 ⊢
  rw [hlen1, wrapIdx_two_mul n k hk2, hemb1]

/-- C8: `sinusoidal_embedding(n, d)` applies cosine not to the raw angles
of the odd rows but to the even rows' values already overwritten by sine:
the second fancy-index assignment targets the rows indexed by
`1 - sin_mask` (which wrap around modulo `n`), storing
`cos(sin(raw angle of row 2k))` into target row `(1 - 2k) mod n`; in
particular row 1 of the returned matrix is the all-ones vector, since it
receives `cos(sin(0)) = 1` from the all-zero row 0. -/
theorem sinusoidal_embedding_odd_rows (n d : ℕ) (w : ℕ → ℚ)
    (sinF cosF : ℚ → ℚ) (hn : 2 ≤ n) (hs : sinF 0 = 0) (hc : cosF 0 = 1) :
    (∀ k, k < (n + 1) / 2 →
      (sinusoidalEmbedding n d w sinF cosF).getD
        (wrapIdx n (1 - 2 * (k : ℤ))) [] =
        (List.range d).map (fun j => cosF (sinF (rawAngle w (2 * k) j)))) ∧
    (sinusoidalEmbedding n d w sinF cosF).getD 1 [] =
      List.replicate d 1 := by
  have hpart1 : ∀ k, k < (n + 1) / 2 →
      (sinusoidalEmbedding n d w sinF cosF).getD
        (wrapIdx n (1 - 2 * (k : ℤ))) [] =
        (List.range d).map (fun j => cosF (sinF (rawAngle w (2 * k) j))) := by
    intro k hkm
    rw [sinEmb_getD n d w sinF cosF hn k hkm]
    simp [List.map_map, Function.comp]
  refine ⟨hpart1, ?_⟩
  have h0 := hpart1 0 (by omega)
  have hw : wrapIdx n (1 - 2 * ((0 : ℕ) : ℤ)) = 1 := by
    have := wrapIdx_one_sub n 0 hn (by omega)
    simpa using this
  rw [hw] at h0
  rw [h0]
  have hz : ∀ j : ℕ, cosF (sinF (rawAngle w (2 * 0) j)) = 1 := by
    intro j
    simp only [Nat.mul_zero, rawAngle, Nat.cast_zero, zero_mul, hs, hc]
  simp only [hz]
  simp [List.map_const']

/-- C8, witness: `n = 2`, `d = 1`, constant angle weight, `sinF = id`
and `cosF = (· + 1)`, which satisfy `sinF 0 = 0` and `cosF 0 = 1`. -/
theorem sinusoidal_embedding_odd_rows_witness :
    2 ≤ 2 ∧ (fun q : ℚ => q) 0 = 0 ∧ (fun q : ℚ => q + 1) 0 = 1 ∧
    ((∀ k : ℕ, k < (2 + 1) / 2 →
      (sinusoidalEmbedding 2 1 (fun _ => 1) (fun q : ℚ => q)
        (fun q : ℚ => q + 1)).getD (wrapIdx 2 (1 - 2 * (k : ℤ))) [] =
        (List.range 1).map
          (fun j => rawAngle (fun _ => (1 : ℚ)) (2 * k) j + 1)) ∧
    (sinusoidalEmbedding 2 1 (fun _ => 1) (fun q : ℚ => q)
      (fun q : ℚ => q + 1)).getD 1 [] = List.replicate 1 1) :=
  ⟨by norm_num, by norm_num, by norm_num,
    sinusoidal_embedding_odd_rows 2 1 (fun _ => 1) (fun q => q)
      (fun q => q + 1) (by norm_num) (by norm_num) (by norm_num)⟩

/-! ## Lemmas about the U-Net forwards -/

theorem prod_filter_ne_one :
    ∀ (l : List ℕ), (l.filter (fun a => a ≠ 1)).prod = l.prod := by
  intro l
  induction l with
  | nil => rfl
  | cons a l ih =>
    by_cases ha : a = 1
    · subst ha
      rw [List.filter_cons, if_neg (by simp), ih, List.prod_cons, one_mul]
    · rw [List.filter_cons, if_pos (by simp [ha]), List.prod_cons,
        List.prod_cons, ih]

theorem squeezeT_shape (x : Tensor) (q : List ℕ) (dl : ℕ)
    (hsx : x.shape = q ++ [dl]) (hd : dl ≠ 1) :
    (squeezeT x).shape = (q.filter (fun a => a ≠ 1)) ++ [dl] := by
  simp [squeezeT, hsx, List.filter_append, List.filter_cons, hd]

theorem linearT_concat (inF outF : ℕ) (A : ℕ → ℕ → ℚ) (c : ℕ → ℚ)
    (x : Tensor) (q : List ℕ) (hsx : x.shape = q ++ [inF]) :
    linearT inF outF A c x =
      Except.ok (Tensor.mk (q ++ [outF])
        (linData inF outF A c q.prod x.data)) := by
  simp [linearT, hsx, List.getLast?_concat, List.dropLast_concat]

theorem applyTE_concat (dimIn : ℕ) (p : TEParams) (x : Tensor)
    (q : List ℕ) (hsx : x.shape = q ++ [dimIn]) :
    applyTE dimIn p x =
      Except.ok (Tensor.mk (q ++ [p.dimOut])
        (teData dimIn p q.prod x.data)) := by
  rw [applyTE, linearT_concat dimIn p.dimOut p.A1 p.c1 x q hsx]
  show linearT p.dimOut p.dimOut p.A2 p.c2
      (elemwiseT p.act (Tensor.mk (q ++ [p.dimOut])
        (linData dimIn p.dimOut p.A1 p.c1 q.prod x.data))) =
    Except.ok (Tensor.mk (q ++ [p.dimOut]) (teData dimIn p q.prod x.data))
  rw [linearT_concat p.dimOut p.dimOut p.A2 p.c2 _ q rfl]
  rfl

theorem reshapeN11_congr (nn : ℕ) (x y : Tensor) (hdata : x.data = y.data)
    (hprod : x.shape.prod = y.shape.prod) :
    reshapeN11 nn x = reshapeN11 nn y := by
  unfold reshapeN11
  rw [hdata, hprod]

/-- The `torch.squeeze` inserted by `UNet_conditional.forward` does not
change the value of any `self.teK(t).reshape(n, -1, 1, 1)` subterm, as
long as the embedding dimension is not 1: the squeezed tensor holds the
same data, its last dimension is still `time_emb_dim`, and removing
size-1 batch dimensions changes neither the row count seen by the
`Linear` layers nor the element count seen by `reshape`. -/
theorem teResh_squeeze (P : UNetParams) (p : TEParams) (nn : ℕ)
    (x : Tensor) (q : List ℕ) (hsx : x.shape = q ++ [P.d]) (hd : P.d ≠ 1) :
    teResh P p nn (squeezeT x) = teResh P p nn x := by
  have hsq := squeezeT_shape x q P.d hsx hd
  have hdata : (squeezeT x).data = x.data := rfl
  rw [teResh, teResh,
    applyTE_concat P.d p (squeezeT x) (q.filter (fun a => a ≠ 1)) hsq,
    applyTE_concat P.d p x q hsx, hdata, prod_filter_ne_one q]
  exact reshapeN11_congr nn _ _ rfl
    (by rw [List.prod_append, List.prod_append, prod_filter_ne_one q])

theorem unetBody_squeeze (P : UNetParams) (B : UNetBlocks) (x : Tensor)
    (temb : Tensor) (q : List ℕ) (hs : temb.shape = q ++ [P.d])
    (hd : P.d ≠ 1) :
    unetBody P B x (squeezeT temb) = unetBody P B x temb := by
  have h7 : ∀ (p : TEParams) (nn : ℕ),
      teResh P p nn (squeezeT temb) = teResh P p nn temb :=
    fun p nn => teResh_squeeze P p nn temb q hs hd
  simp only [unetBody, h7]

theorem embedLookup_ok_shape (numEmb dd : ℕ) (W : ℕ → ℕ → ℚ)
    (t : IdxTensor) (r : Tensor)
    (h : embedLookup numEmb dd W t = Except.ok r) :
    r.shape = t.shape ++ [dd] := by
  unfold embedLookup at h
  split at h
  · cases h
    rfl
  · cases h

/-- C3: with the label argument omitted, `UNet_conditional.forward`
computes exactly `MyUNet.forward` — the extra `torch.squeeze` on the time
embedding is value-irrelevant (for the architecture's `time_emb_dim ≠ 1`,
e.g. the default 100), and the label branch is skipped, so a missing
label degrades to unconditional generation. -/
theorem unet_conditional_none_label (P : UNetParams) (B : UNetBlocks)
    (labelEmb : Option (ℕ × (ℕ → ℕ → ℚ))) (x : Tensor) (t : IdxTensor)
    (N : ℕ) (hshape : t.shape = [N] ∨ t.shape = [N, 1])
    (hentries : ∀ i ∈ t.data, i < P.nSteps) (hd : P.d ≠ 1) :
    unetCondForward P B labelEmb x t none = myUNetForward P B x t := by
  unfold unetCondForward myUNetForward
  cases h : embedLookup P.nSteps P.d P.embW t with
  | error e => rfl
  | ok temb =>
    have hts := embedLookup_ok_shape P.nSteps P.d P.embW t temb h
    rcases hshape with hsh | hsh
    · exact unetBody_squeeze P B x temb [N] (by rw [hts, hsh]) hd
    · exact unetBody_squeeze P B x temb [N, 1] (by rw [hts, hsh]) hd

/-- C3, witness: a batch of one sample with `time_emb_dim = 2`. -/
theorem unet_conditional_none_label_witness :
    (tW.shape = [1] ∨ tW.shape = [1, 1]) ∧
    (∀ i ∈ tW.data, i < unetPW.nSteps) ∧ unetPW.d ≠ 1 ∧
    unetCondForward unetPW unetBW none xW tW none =
      myUNetForward unetPW unetBW xW tW :=
  ⟨Or.inl rfl, by decide, by decide,
    unet_conditional_none_label unetPW unetBW none xW tW 1 (Or.inl rfl)
      (by decide) (by decide)⟩

/-! ## Lemmas about which operations can raise an AttributeError -/

theorem embedLookup_ne_attr (numEmb dd : ℕ) (W : ℕ → ℕ → ℚ)
    (t : IdxTensor) :
    embedLookup numEmb dd W t ≠ Except.error TErr.attributeErr := by
  unfold embedLookup
  split <;> simp

theorem linearT_ne_attr (inF outF : ℕ) (A : ℕ → ℕ → ℚ) (c : ℕ → ℚ)
    (x : Tensor) :
    linearT inF outF A c x ≠ Except.error TErr.attributeErr := by
  unfold linearT
  split
  · simp
  · split <;> simp

theorem reshapeN11_ne_attr (nn : ℕ) (x : Tensor) :
    reshapeN11 nn x ≠ Except.error TErr.attributeErr := by
  simp only [reshapeN11]
  split <;> simp

theorem broadcastAdd_ne_attr (x y : Tensor) :
    broadcastAdd x y ≠ Except.error TErr.attributeErr := by
  unfold broadcastAdd
  split <;> simp

theorem inplaceAdd_ne_attr (x y : Tensor) :
    inplaceAdd x y ≠ Except.error TErr.attributeErr := by
  unfold inplaceAdd
  cases h : broadcastAdd x y with
  | ok r =>
    show (if r.shape = x.shape then Except.ok r
      else Except.error TErr.shapeErr) ≠ Except.error TErr.attributeErr
    split <;> simp
  | error e =>
    have hb := broadcastAdd_ne_attr x y
    rw [h] at hb
    exact hb

theorem catDim1_ne_attr (x y : Tensor) :
    catDim1 x y ≠ Except.error TErr.attributeErr := by
  unfold catDim1
  split
  · split <;> simp
  · simp

theorem liftB_ne_attr (f : Tensor → Option Tensor) (x : Tensor) :
    liftB f x ≠ Except.error TErr.attributeErr := by
  unfold liftB
  split <;> simp

theorem applyTE_ne_attr (dimIn : ℕ) (p : TEParams) (x : Tensor) :
    applyTE dimIn p x ≠ Except.error TErr.attributeErr := by
  unfold applyTE
  cases h : linearT dimIn p.dimOut p.A1 p.c1 x with
  | ok y => exact linearT_ne_attr _ _ _ _ _
  | error e =>
    have hl := linearT_ne_attr dimIn p.dimOut p.A1 p.c1 x
    rw [h] at hl
    exact hl

theorem teResh_ne_attr (P : UNetParams) (p : TEParams) (nn : ℕ)
    (temb : Tensor) :
    teResh P p nn temb ≠ Except.error TErr.attributeErr := by
  unfold teResh
  cases h : applyTE P.d p temb with
  | ok v => exact reshapeN11_ne_attr _ _
  | error e =>
    have ha := applyTE_ne_attr P.d p temb
    rw [h] at ha
    exact ha

theorem bind_ne_attr (ma : TRes) (f : Tensor → TRes)
    (h1 : ma ≠ Except.error TErr.attributeErr)
    (h2 : ∀ v, f v ≠ Except.error TErr.attributeErr) :
    (ma >>= f) ≠ Except.error TErr.attributeErr := by
  cases ma with
  | ok v => exact h2 v
  | error e => exact h1

theorem unetBody_ne_attr (P : UNetParams) (B : UNetBlocks) (x : Tensor)
    (temb : Tensor) :
    unetBody P B x temb ≠ Except.error TErr.attributeErr := by
  unfold unetBody
  split
  · simp
  · repeat
      first
        | exact teResh_ne_attr _ _ _ _
        | exact broadcastAdd_ne_attr _ _
        | exact liftB_ne_attr _ _
        | exact catDim1_ne_attr _ _
        | refine bind_ne_attr _ _ ?_ (fun v => ?_)

/-- C9: constructing `UNet_conditional` with `nb_classes=None` (the
default) never creates the `label_emb` attribute, so `forward(x, t, y)`
with a label raises an AttributeError while `forward(x, t, None)` behaves
exactly as on a fully-constructed network; with an integer `nb_classes`,
`forward` accepts a label tensor as well as `None` and never raises an
AttributeError. -/
theorem unet_conditional_label_errors (P : UNetParams) (B : UNetBlocks)
    (W : ℕ → ℕ → ℚ) (c : ℕ) (x : Tensor) (t : IdxTensor) (yy : IdxTensor)
    (hentries : ∀ i ∈ t.data, i < P.nSteps) :
    mkLabelEmb none W = none ∧
    unetCondForward P B (mkLabelEmb none W) x t (some yy) =
      Except.error TErr.attributeErr ∧
    unetCondForward P B (mkLabelEmb none W) x t none =
      unetCondForward P B (mkLabelEmb (some c) W) x t none ∧
    (∀ y2 : Option IdxTensor,
      unetCondForward P B (mkLabelEmb (some c) W) x t y2 ≠
        Except.error TErr.attributeErr) := by
  have hall : t.data.all (fun i => i < P.nSteps) = true := by
    simp only [List.all_eq_true, decide_eq_true_eq]
    exact hentries
  have hok : embedLookup P.nSteps P.d P.embW t =
      Except.ok (Tensor.mk (t.shape ++ [P.d])
        (t.data.flatMap (fun i =>
          (List.range P.d).map (fun j => P.embW i j)))) := by
    unfold embedLookup
    rw [if_pos hall]
  refine ⟨rfl, ?_, ?_, ?_⟩
  · unfold unetCondForward
    rw [hok]
    rfl
  · unfold unetCondForward
    cases h : embedLookup P.nSteps P.d P.embW t with
    | error e => rfl
    | ok temb => rfl
  · intro y2
    unfold unetCondForward
    cases h : embedLookup P.nSteps P.d P.embW t with
    | error e =>
      have he := embedLookup_ne_attr P.nSteps P.d P.embW t
      rw [h] at he
      exact he
    | ok temb =>
      cases y2 with
      | none => exact unetBody_ne_attr P B x (squeezeT temb)
      | some y2 =>
        show (match embedLookup c P.d W y2 with
          | Except.error e => Except.error e
          | Except.ok lv =>
            match inplaceAdd (squeezeT temb) lv with
            | Except.error e => Except.error e
            | Except.ok temb2 => unetBody P B x temb2) ≠
          Except.error TErr.attributeErr
        cases h2 : embedLookup c P.d W y2 with
        | error e =>
          have he := embedLookup_ne_attr c P.d W y2
          rw [h2] at he
          exact he
        | ok lv =>
          show (match inplaceAdd (squeezeT temb) lv with
            | Except.error e => Except.error e
            | Except.ok temb2 => unetBody P B x temb2) ≠
            Except.error TErr.attributeErr
          cases h3 : inplaceAdd (squeezeT temb) lv with
          | error e =>
            have he := inplaceAdd_ne_attr (squeezeT temb) lv
            rw [h3] at he
            exact he
          | ok temb2 => exact unetBody_ne_attr P B x temb2

/-- C9, witness: the concrete one-sample network. -/
theorem unet_conditional_label_errors_witness :
    (∀ i ∈ tW.data, i < unetPW.nSteps) ∧
    (mkLabelEmb none (fun _ _ => 0) = none ∧
    unetCondForward unetPW unetBW (mkLabelEmb none (fun _ _ => 0)) xW tW
      (some yW) = Except.error TErr.attributeErr ∧
    unetCondForward unetPW unetBW (mkLabelEmb none (fun _ _ => 0)) xW tW
        none =
      unetCondForward unetPW unetBW (mkLabelEmb (some 1) (fun _ _ => 0))
        xW tW none ∧
    (∀ y2 : Option IdxTensor,
      unetCondForward unetPW unetBW (mkLabelEmb (some 1) (fun _ _ => 0))
        xW tW y2 ≠ Except.error TErr.attributeErr)) :=
  ⟨by decide,
    unet_conditional_label_errors unetPW unetBW (fun _ _ => 0) 1 xW tW yW
      (by decide)⟩

end PGM
